import Mathlib

/-!
Verification of the peru tree-cache / synchronization engine against its
specification.  The development shallowly embeds the Python sources:

* `peru/async.py` — the asynchronous execution harness (`stable_gather`,
  `create_subprocess_with_handle`);
* `peru/plugin_shared.py` — the plugin argument protocol (`parse_plugin_args`,
  `plugin_main`);
* `peru/plugins/git_plugin.py` — the git fetch plugin (`repo_cache_path`,
  `git_clone_if_needed`, `git_already_has_rev`, `FetchJob.run`);
* the TreeStore / WorkingCopySync component (`peru/cache.py` is not part of
  the provided sources; only its test suite is, so that component is
  modelled from the specification, as marked on each such definition).

Python byte strings are `List Nat` (one Nat per byte, values < 256), decoded
text is `List Nat` (one Nat per code point), and machine integers are `Int`.
-/

/-! ## Section 1: the asynchronous execution harness (`peru/async.py`) -/

/-- A byte is a UTF-8 continuation byte (`0x80 ≤ b < 0xC0`). -/
def isContByte (b : Nat) : Bool := 128 ≤ b && b < 192

/-- Total length (lead byte included) of the UTF-8 sequence announced by a
lead byte `0xC2 ≤ lead < 0xF5`. -/
def utf8SeqLen (lead : Nat) : Nat :=
  if lead < 0xE0 then 2 else if lead < 0xF0 then 3 else 4

/-- Code point assembled from a complete UTF-8 sequence (lead byte first). -/
def utf8CodePoint (seq : List Nat) : Nat :=
  match seq with
  | [l, c1] => (l - 0xC0) * 64 + (c1 - 0x80)
  | [l, c1, c2] => (l - 0xE0) * 4096 + (c1 - 0x80) * 64 + (c2 - 0x80)
  | [l, c1, c2, c3] =>
      (l - 0xF0) * 262144 + (c1 - 0x80) * 4096 + (c2 - 0x80) * 64 + (c3 - 0x80)
  | _ => 0xFFFD

/-- Handling of one byte arriving while no multi-byte sequence is pending:
ASCII is emitted as is, a valid lead byte starts a pending sequence, and an
invalid byte is consumed and replaced by U+FFFD (the harness constructs its
decoder with `errors='replace'`).  Returns `(emitted, new pending)`. -/
def utf8FreshByte (b : Nat) : List Nat × List Nat :=
  if b < 0x80 then ([b], [])
  else if b < 0xC2 then ([0xFFFD], [])
  else if b < 0xF5 then ([], [b])
  else ([0xFFFD], [])

/-- The stateful incremental UTF-8 decoder used by
`create_subprocess_with_handle` (an `errors='replace'` incremental decoder
from the standard `codecs` module; the harness only ever observes its
`decode` output and its `buffer` of still-undecoded trailing bytes).
`utf8DecodeBytes pending input` returns `(code points, leftover pending)`:
a sequence that is still incomplete when the input ends stays buffered in
`pending`; an invalid continuation byte makes the pending sequence decode to
U+FFFD and the offending byte is then reconsidered on its own. -/
def utf8DecodeBytes : List Nat → List Nat → List Nat × List Nat
  | pending, [] => ([], pending)
  | pending, b :: rest =>
    match pending with
    | [] =>
      let fresh := utf8FreshByte b
      let tail := utf8DecodeBytes fresh.2 rest
      (fresh.1 ++ tail.1, tail.2)
    | lead :: _ =>
      if isContByte b then
        if (pending ++ [b]).length = utf8SeqLen lead then
          let tail := utf8DecodeBytes [] rest
          (utf8CodePoint (pending ++ [b]) :: tail.1, tail.2)
        else
          utf8DecodeBytes (pending ++ [b]) rest
      else
        let fresh := utf8FreshByte b
        let tail := utf8DecodeBytes fresh.2 rest
        (0xFFFD :: (fresh.1 ++ tail.1), tail.2)

/-- Feeding the successive output chunks of the subprocess through the
incremental decoder, accumulating the decoded text exactly as
`create_subprocess_with_handle` does into `output_copy` (each decoded chunk
is also forwarded verbatim to the display handle, so the accumulated copy
is the whole displayed stream).  Returns the accumulated code points and
the decoder's final buffer of undecoded bytes. -/
def feedChunks : List Nat → List (List Nat) → List Nat × List Nat
  | buffer, [] => ([], buffer)
  | buffer, chunk :: rest =>
    let step := utf8DecodeBytes buffer chunk
    let tail := feedChunks step.2 rest
    (step.1 ++ tail.1, tail.2)

/-- Observable behavior of the subprocess launched by
`create_subprocess_with_handle`: the list of byte chunks successively
returned by `proc.stdout.read` (stdout and stderr are merged by the
harness via `stderr=STDOUT`), and the exit code returned by `proc.wait`. -/
structure ProcBehavior where
  chunks : List (List Nat)
  returncode : Int
deriving DecidableEq

/-- Outcome of one `create_subprocess_with_handle` call.
`ok` is a normal return carrying the full captured text;
`processError` is the raised `subprocess.CalledProcessError(returncode,
command, output)`; `assertionFailed` is the failure of
`assert not decoder.buffer`, carrying the nonempty buffer. -/
inductive ProcOutcome where
  | ok : List Nat → ProcOutcome
  | processError : Int → List String → List Nat → ProcOutcome
  | assertionFailed : List Nat → ProcOutcome
deriving DecidableEq

/-- Embedding of `create_subprocess_with_handle` (`peru/async.py`, lines
20-73): all output chunks are read and fed through the incremental decoder
while being accumulated; after `proc.wait()` the code first raises
`CalledProcessError` when the exit code is nonzero, then asserts that the
decoder buffer is empty, then returns the captured text. -/
def create_subprocess_with_handle (command : List String) (proc : ProcBehavior) :
    ProcOutcome :=
  let run := feedChunks [] proc.chunks
  if proc.returncode ≠ 0 then
    ProcOutcome.processError proc.returncode command run.1
  else if run.2 ≠ [] then
    ProcOutcome.assertionFailed run.2
  else
    ProcOutcome.ok run.1

/-- A coroutine passed to `stable_gather`: `cid` is the Python object
identity (`set()` deduplicates by it) and `result` the value the coroutine
eventually produces. -/
structure Coro where
  cid : Nat
  result : Nat
deriving DecidableEq

/-- The event loop's callback queue built by the `asyncio.async(coro)` loop
in `stable_gather`: each call appends the new task's first step to the
loop's FIFO ready queue, so after the list comprehension the queue holds the
coroutines in input order. -/
def scheduleQueue (coros : List Coro) : List Coro :=
  coros.foldl (fun q c => q ++ [c]) []

/-- Running the ready queue: the loop pops callbacks first-in-first-out and
each task records its identity in the shared start log when it first runs. -/
def startLog (queue : List Coro) : List Nat :=
  queue.map Coro.cid

/-- One completion event: when the task at input position `j` finishes,
`asyncio.gather` stores its result in the slot reserved for position `j`. -/
def completeOne (tasks : List Coro) (slots : List (Option Nat)) (j : Nat) :
    List (Option Nat) :=
  match tasks[j]? with
  | none => slots
  | some c => slots.set j (some c.result)

/-- All completion events in the (scheduler-chosen, arbitrary) order
`order` of input positions, starting from the empty result slots that
`asyncio.gather` allocates. -/
def completeAll (tasks : List Coro) (order : List Nat) : List (Option Nat) :=
  order.foldl (completeOne tasks) (List.replicate tasks.length none)

/-- Embedding of `stable_gather` (`peru/async.py`, lines 8-17) run to
completion under a scheduler that completes the started tasks in the
arbitrary order `order` of input positions: the duplicate assert
(`len(coros) == len(set(coros))`, identity-based deduplication) fires before
anything is scheduled; otherwise every task is scheduled in input order and
the gathered future yields the slot contents (input order) once all
completions have run. -/
def stable_gather (coros : List Coro) (order : List Nat) :
    Except String (List Nat × List (Option Nat)) :=
  if coros.length ≠ coros.dedup.length then
    Except.error "no duplicates allowed"
  else
    Except.ok (startLog (scheduleQueue coros), completeAll coros order)

/-! ## Section 2: the plugin process protocol (`peru/plugin_shared.py`) -/

/-- A Python `dict` from field names to values, as an insertion-ordered
association list with unique keys. -/
abbrev Fields := List (String × String)

/-- `fields_dict[field_name] = field_val`: overwriting an existing key keeps
its position, a new key is appended (Python dict semantics). -/
def dictInsert (d : Fields) (k v : String) : Fields :=
  if d.any (fun kv => kv.1 = k) then
    d.map (fun kv => if kv.1 = k then (k, v) else kv)
  else
    d ++ [(k, v)]

/-- An exception escaping `parse_plugin_args`: either the `BadFieldsError`
the module defines (identified here by the constant part of its message), or
an ordinary Python exception such as the `IndexError` raised by
`args[splitter+1]` when nothing follows the `"--"` splitter. -/
inductive PluginError where
  | badFields : String → PluginError
  | pyExc : String → PluginError
deriving DecidableEq

/-- The `while splitter < len(args)` scan of `parse_plugin_args`: starting
from index `i`, test indices `i, i+2, i+4, ...` for the exact argument
`"--"` and return the first index found; the skipped odd offsets are field
values, which may legitimately be `"--"`.  Falling off the end means the
loop's `else:` branch (no splitter). -/
def findSplitterFrom : List String → Nat → Option Nat
  | [], _ => none
  | a :: rest, i =>
    if a = "--" then some i
    else
      match rest with
      | [] => none
      | _ :: rest2 => findSplitterFrom rest2 (i + 2)

/-- `zip(field_args[0::2], field_args[1::2])`: consecutive name/value pairs
(an unpaired trailing element is dropped, as `zip` truncates). -/
def pairUp : List String → List (String × String)
  | a :: b :: rest => (a, b) :: pairUp rest
  | _ => []

/-- The field-parsing loop of `parse_plugin_args`: each name is rejected
unless it is a known field, otherwise the pair enters the dict. -/
def buildFieldsDict (allFields : List String) :
    List (String × String) → Fields → Except PluginError Fields
  | [], acc => Except.ok acc
  | (n, v) :: rest, acc =>
    if n ∈ allFields then buildFieldsDict allFields rest (dictInsert acc n v)
    else Except.error (PluginError.badFields "unrecognized field name")

/-- Embedding of `parse_plugin_args` (`peru/plugin_shared.py`, lines 24-55)
applied to `sys.argv[1:] = args`: find the `"--"` splitter (else
`BadFieldsError`), split off the command and its arguments, check the field
list length parity, parse and validate the fields, and check that every
required field is present (`fields_dict.keys() & required_fields ==
required_fields`). -/
def parse_plugin_args (requiredFields optionalFields : List String)
    (args : List String) :
    Except PluginError (Fields × String × List String) :=
  let allFields := requiredFields ++ optionalFields
  match findSplitterFrom args 0 with
  | none => Except.error (PluginError.badFields "Never found -- splitter.")
  | some splitter =>
    let fieldArgs := args.take splitter
    match args[splitter + 1]? with
    | none => Except.error (PluginError.pyExc "IndexError: list index out of range")
    | some command =>
      let commandArgs := args.drop (splitter + 2)
      if fieldArgs.length % 2 ≠ 0 then
        Except.error (PluginError.badFields "uneven plugin fields")
      else
        match buildFieldsDict allFields (pairUp fieldArgs) [] with
        | Except.error e => Except.error e
        | Except.ok fieldsDict =>
          if requiredFields.all (fun r => fieldsDict.any (fun kv => kv.1 = r)) then
            Except.ok (fieldsDict, command, commandArgs)
          else
            Except.error (PluginError.badFields "missing required fields")

/-- Observable outcome of `plugin_main`: `fetched fields dest cachePath`
records the call `fetch_fn(fields, dest, cache_path)`, `reupped fields
cachePath` records `reup_fn(fields, cache_path)`, `badFields` is an escaped
`BadFieldsError`, `unknownCommand c` is the message `"Unknown command: c"`
printed to `sys.stderr` followed by `sys.exit(1)` (a nonzero exit), and
`pyExc` is any other escaped Python exception (`IndexError` when the
command is missing, `ValueError` when the command arguments do not unpack
into the expected arity). -/
inductive PluginOutcome where
  | fetched : Fields → String → String → PluginOutcome
  | reupped : Fields → String → PluginOutcome
  | badFields : String → PluginOutcome
  | unknownCommand : String → PluginOutcome
  | pyExc : String → PluginOutcome
deriving DecidableEq

/-- Embedding of `plugin_main` (`peru/plugin_shared.py`, lines 4-21): parse
the argument vector, then triage on the command — `"fetch"` unpacks
`dest, cache_path = command_args`, `"reup"` unpacks
`cache_path, = command_args`, anything else prints to stderr and exits 1. -/
def plugin_main (requiredFields optionalFields : List String)
    (args : List String) : PluginOutcome :=
  match parse_plugin_args requiredFields optionalFields args with
  | Except.error (PluginError.badFields m) => PluginOutcome.badFields m
  | Except.error (PluginError.pyExc m) => PluginOutcome.pyExc m
  | Except.ok (fields, command, commandArgs) =>
    if command = "fetch" then
      match commandArgs with
      | [dest, cachePath] => PluginOutcome.fetched fields dest cachePath
      | _ => PluginOutcome.pyExc "ValueError: unpacking"
    else if command = "reup" then
      match commandArgs with
      | [cachePath] => PluginOutcome.reupped fields cachePath
      | _ => PluginOutcome.pyExc "ValueError: unpacking"
    else
      PluginOutcome.unknownCommand command

/-- The argument vector `FIELD VAL ... ` laid out flat, names at even
offsets and values at odd offsets, as the plugin command line has it before
the `"--"` splitter. -/
def flattenPairs : List (String × String) → List String
  | [] => []
  | (n, v) :: rest => n :: v :: flattenPairs rest

/-- The fields dict that a list of name/value pairs parses to. -/
def fieldsOfPairs (pairs : List (String × String)) : Fields :=
  pairs.foldl (fun d p => dictInsert d p.1 p.2) []

/-! ## Section 3: the git fetch plugin (`peru/plugins/git_plugin.py`) -/

/-- UTF-8 encoding of one character (`urllib.parse.quote` percent-encodes
the UTF-8 bytes of its input string). -/
def utf8EncodeChar (c : Char) : List Nat :=
  let n := c.toNat
  if n < 0x80 then [n]
  else if n < 0x800 then [0xC0 + n / 64, 0x80 + n % 64]
  else if n < 0x10000 then
    [0xE0 + n / 4096, 0x80 + (n / 64) % 64, 0x80 + n % 64]
  else
    [0xF0 + n / 262144, 0x80 + (n / 4096) % 64, 0x80 + (n / 64) % 64,
      0x80 + n % 64]

/-- The bytes `urllib.parse.quote` leaves unescaped with `safe=""`: ASCII
letters, digits, and `_.-~`. -/
def isAlwaysSafeByte (b : Nat) : Bool :=
  (0x41 ≤ b && b ≤ 0x5A) || (0x61 ≤ b && b ≤ 0x7A) ||
    (0x30 ≤ b && b ≤ 0x39) || b = 0x2D || b = 0x2E || b = 0x5F || b = 0x7E

/-- Uppercase hex digit, as `quote` produces (`%XX` with uppercase hex). -/
def hexDigitChar (n : Nat) : Char :=
  if n < 10 then Char.ofNat (0x30 + n) else Char.ofNat (0x41 + n - 10)

/-- Percent-escaping of one byte under `quote(url, safe="")`. -/
def escapeByte (b : Nat) : String :=
  if isAlwaysSafeByte b then String.singleton (Char.ofNat b)
  else
    "%" ++ String.singleton (hexDigitChar (b / 16)) ++
      String.singleton (hexDigitChar (b % 16))

/-- `urllib.parse.quote(url, safe="")`: percent-escape every UTF-8 byte of
`url` that is not in the always-safe set. -/
def quoteUrl (url : String) : String :=
  String.join (((url.data.map utf8EncodeChar).flatten).map escapeByte)

/-- Python `str.strip()` with no argument: remove leading and trailing
whitespace. -/
def pyStrip (s : String) : String :=
  String.mk
    (((s.data.dropWhile Char.isWhitespace).reverse.dropWhile
        Char.isWhitespace).reverse)

/-- Embedding of `repo_cache_path` (`peru/plugins/git_plugin.py`, lines
12-14): `os.path.join(cache_root, escaped)` where `escaped` never starts
with a separator (every `/` is escaped to `%2F`), so the join is plain
concatenation with one separator. -/
def repo_cache_path (url cacheRoot : String) : String :=
  cacheRoot ++ "/" ++ quoteUrl url

/-- The failure `git_clone_if_needed` propagates when the
`git clone --mirror` subprocess exits nonzero (the `git` helper raises
`RuntimeError` on any nonzero exit). -/
inductive GitError where
  | cloneFailed : GitError
deriving DecidableEq

/-- Embedding of `git_clone_if_needed` (`peru/plugins/git_plugin.py`, lines
35-48) over an explicit cache state: `fs` is the set of cache directories
that exist, `cloneOk` is whether the `git clone --mirror` subprocess
succeeds.  If the per-URL directory exists the clone is skipped; otherwise
the directory is created (`os.makedirs`), and a failing clone removes the
just-created directory (`shutil.rmtree`) before re-raising.  Returns the
result (the cache path, or the propagated error) paired with the final
cache state. -/
def git_clone_if_needed (url cacheRoot : String) (fs : List String)
    (cloneOk : Bool) : Except GitError String × List String :=
  let repoPath := repo_cache_path url cacheRoot
  if repoPath ∈ fs then
    (Except.ok repoPath, fs)
  else
    let created := repoPath :: fs
    if cloneOk then
      (Except.ok repoPath, created)
    else
      (Except.error GitError.cloneFailed, created.erase repoPath)

/-- The cached mirror as the fetch job observes it through git commands:
`hasRev rev` is whether `git cat-file -e rev` exits 0, and `revParse rev`
is the raw stdout of `git rev-parse rev` (`none` when that command exits
nonzero and the `git` helper raises). -/
structure GitRepo where
  hasRev : String → Bool
  revParse : String → Option String

/-- Embedding of `FetchJob.git_already_has_rev` (`peru/plugins/
git_plugin.py`, lines 66-78): inside the `try`, `git cat-file -e rev` then
`git rev-parse rev`; any failure returns `False`; otherwise the result is
whether the stripped `rev-parse` output equals `rev` exactly (only absolute
hashes may skip the fetch). -/
def git_already_has_rev (repo : GitRepo) (rev : String) : Bool :=
  if repo.hasRev rev then
    match repo.revParse rev with
    | some out => pyStrip out = rev
    | none => false
  else
    false

/-- Embedding of `FetchJob.run` (`peru/plugins/git_plugin.py`, lines
101-106) as the sequence of steps it performs: ensure the cached clone
exists, run `git fetch --prune` on it unless `git_already_has_rev`, then
check the revision out into the destination. -/
def fetchJobRun (repo : GitRepo) (rev : String) : List String :=
  ["clone_if_needed"] ++
    (if git_already_has_rev repo rev then [] else ["fetch"]) ++
    ["checkout"]

example : quoteUrl "https://a.b/c" = "https%3A%2F%2Fa.b%2Fc" := by decide
example : pyStrip " a1\n" = "a1" := by decide
example :
    git_clone_if_needed "u/v" "/cache" [] false =
      (Except.error GitError.cloneFailed, []) := rfl
example :
    git_clone_if_needed "u/v" "/cache" [] true =
      (Except.ok "/cache/u%2Fv", ["/cache/u%2Fv"]) := rfl
example :
    fetchJobRun
      ⟨fun r => r = "a1", fun r => if r = "a1" then some "a1\n" else none⟩
      "a1" = ["clone_if_needed", "checkout"] := by
  decide
example :
    fetchJobRun
      ⟨fun r => r = "a1", fun r => if r = "a1" then some "a1\n" else none⟩
      "master" = ["clone_if_needed", "fetch", "checkout"] := by
  decide

example :
    plugin_main ["url"] ["rev"] ["url", "u", "--", "fetch", "d", "c"] =
      PluginOutcome.fetched [("url", "u")] "d" "c" := by decide
example :
    plugin_main ["url"] ["rev"] ["url", "u", "rev", "--", "fetch", "d", "c"] =
      PluginOutcome.badFields "Never found -- splitter." := by decide
example :
    plugin_main ["url"] ["rev"] ["bad", "u", "--", "fetch", "d", "c"] =
      PluginOutcome.badFields "unrecognized field name" := by decide
example :
    plugin_main ["url"] ["rev"] ["rev", "r", "--", "fetch", "d", "c"] =
      PluginOutcome.badFields "missing required fields" := by decide
example :
    plugin_main ["url"] ["rev"] ["url", "u", "--", "frob"] =
      PluginOutcome.unknownCommand "frob" := by decide
example :
    plugin_main ["url"] ["rev"] ["url", "u", "--", "reup", "c"] =
      PluginOutcome.reupped [("url", "u")] "c" := by decide

/-! ## Section 4: the TreeStore / WorkingCopySync component

`peru/cache.py` is not among the provided sources (only its test suite,
`tests/test_cache.py`, is), so this component is modelled from the
specification (spec sections 3, 4.1 and 4.2), as each doc comment notes.
A path is a list of segments, file content is a list of bytes, and both an
immutable Tree and a live working directory are finite mappings from full
paths to file contents, represented as association lists; a Tree is kept in
a canonical (sorted) form so that equal content means equal identity, which
models the content-addressed hashing. -/

/-- Modelled from the spec: a slash-separated path, as its list of
segments. -/
abbrev TreePath := List String

/-- Modelled from the spec: immutable file content (a Blob), as bytes. -/
abbrev Blob := List Nat

/-- Modelled from the spec: a finite mapping from full file paths to file
contents.  Both Trees (immutable snapshots) and working-copy directories
are values of this type; a Tree additionally has unique keys and canonical
(sorted) order. -/
abbrev TreeMap := List (TreePath × Blob)

/-- Modelled from the spec: the content recorded at path `p`, if any. -/
def lookupPath : TreeMap → TreePath → Option Blob
  | [], _ => none
  | e :: rest, p => if e.1 = p then some e.2 else lookupPath rest p

/-- Modelled from the spec: whether path `p` carries a file in `d`. -/
def hasKey (d : TreeMap) (p : TreePath) : Bool :=
  d.any (fun e => e.1 = p)

/-- The mapping has no two entries for the same path (true of every real
directory and of every canonical Tree). -/
def nodupKeys (d : TreeMap) : Prop :=
  (d.map Prod.fst).Nodup

instance (d : TreeMap) : Decidable (nodupKeys d) := by
  unfold nodupKeys; infer_instance

/-- Modelled from the spec: write file content `c` at path `p` in a working
copy, overwriting the existing file if there is one. -/
def dirWrite (d : TreeMap) (p : TreePath) (c : Blob) : TreeMap :=
  if hasKey d p then d.map (fun e => if e.1 = p then (p, c) else e)
  else d ++ [(p, c)]

/-- Modelled from the spec (WorkingCopySync step 4): materialize every path
of the target tree into the working copy, in tree order. -/
def writeAll : TreeMap → TreeMap → TreeMap
  | [], d => d
  | e :: rest, d => writeAll rest (dirWrite d e.1 e.2)

/-- Modelled from the spec (WorkingCopySync step 4): remove the files that
were in `previous_tree` but are not in the target tree; every other path of
the working copy is left untouched. -/
def removeStale (t prev : TreeMap) (dest : TreeMap) : TreeMap :=
  dest.filter (fun e => !(hasKey prev e.1 && !hasKey t e.1))

/-- Modelled from the spec (error taxonomy, section 7): the two domain
errors of the TreeStore. -/
inductive CacheError where
  | dirtyWorkingCopyError : CacheError
  | mergeConflictError : CacheError
deriving DecidableEq

/-- Modelled from the spec (WorkingCopySync step 1): the paths at which the
baseline tree's recorded content differs from the working copy's current
content.  A path present in the baseline but missing from the working copy
is never dirty (deleted files are simply recreated). -/
def dirtyPaths (baseline : TreeMap) (dest : TreeMap) : List TreePath :=
  (baseline.filter (fun e =>
      match lookupPath dest e.1 with
      | none => false
      | some c => decide (c ≠ e.2))).map Prod.fst

/-- Modelled from the spec: `export_tree(tree, dest_dir, previous_tree,
force)` (spec sections 4.1 and 4.2) over an explicit working-copy state.
Dirty detection uses `previous_tree` as the baseline when it is supplied,
and otherwise checks for collisions at the target tree's own paths
(WorkingCopySync steps 1, 2 and 6).  If any dirty path exists and `force`
is false the call fails with `DirtyWorkingCopyError` and writes nothing;
otherwise stale files (in `previous_tree` but not in `tree`) are removed
and every path of `tree` is materialized, leaving unrelated paths
untouched.  Returns the result paired with the resulting working copy. -/
def exportTree (t : TreeMap) (dest : TreeMap) (prev : Option TreeMap)
    (force : Bool) : Except CacheError Unit × TreeMap :=
  let baseline := prev.getD t
  if !(dirtyPaths baseline dest).isEmpty && !force then
    (Except.error CacheError.dirtyWorkingCopyError, dest)
  else
    (Except.ok (), writeAll t (removeStale t (prev.getD []) dest))

/-- Lexicographic comparison of character lists by code point. -/
def charListLeB : List Char → List Char → Bool
  | [], _ => true
  | _ :: _, [] => false
  | a :: as, b :: bs =>
    if a.toNat < b.toNat then true
    else if b.toNat < a.toNat then false
    else charListLeB as bs

/-- Lexicographic comparison of segment lists (segments compared by their
characters). -/
def segListLeB : List String → List String → Bool
  | [], _ => true
  | _ :: _, [] => false
  | a :: as, b :: bs =>
    if charListLeB a.data b.data && !charListLeB b.data a.data then true
    else if charListLeB b.data a.data && !charListLeB a.data b.data then false
    else segListLeB as bs

/-- Lexicographic comparison of byte lists. -/
def natListLeB : List Nat → List Nat → Bool
  | [], _ => true
  | _ :: _, [] => false
  | a :: as, b :: bs =>
    if a < b then true
    else if b < a then false
    else natListLeB as bs

/-- Lexicographic order on tree entries (path, then content), used to keep
Trees canonical. -/
def entryLe (a b : TreePath × Blob) : Prop :=
  (if segListLeB a.1 b.1 && !segListLeB b.1 a.1 then true
   else if segListLeB b.1 a.1 && !segListLeB a.1 b.1 then false
   else natListLeB a.2 b.2) = true

instance : DecidableRel entryLe :=
  fun _ _ => inferInstanceAs (Decidable (_ = true))

/-- Modelled from the spec: `import_tree(source_dir)` (spec section 4.1)
hashes every file of the source directory and assembles an immutable,
content-addressed Tree; identical content always yields the identical tree
identity, and the source directory is never mutated (the function is pure
in its argument).  In this embedding the content hash of a mapping is the
mapping itself in canonical sorted order. -/
def importTree (source : TreeMap) : TreeMap :=
  List.insertionSort entryLe source

/-- Modelled from the spec: splitting a prefix string on `/` separators,
Python-`str.split` style (`acc` is the current segment, reversed). -/
def splitOnSlashAux : List Char → List Char → List String
  | [], acc => [String.mk acc.reverse]
  | c :: rest, acc =>
    if c = '/' then String.mk acc.reverse :: splitOnSlashAux rest []
    else splitOnSlashAux rest (c :: acc)

/-- Modelled from the spec: prefix normalization for `merge_trees` and
`modify_tree` — forward-slash-separated segments with redundant separators
and trailing slashes collapsed (empty segments dropped). -/
def normSegs (s : String) : TreePath :=
  (splitOnSlashAux s.data []).filter (fun seg => seg ≠ "")

/-- Modelled from the spec: `merge_trees(tree_a, tree_b, prefix)` (spec
section 4.1) — the tree equal to `tree_a` (or empty when absent) with the
subtree at the normalized prefix replaced by `tree_b`.  If the prefix
already resolves to an existing file or a non-empty subtree of `tree_a`
(i.e. the normalized prefix is a prefix of some entry's path), the merge
fails with `MergeConflictError` instead of overwriting or dropping
anything. -/
def mergeTrees (a : Option TreeMap) (b : TreeMap) (pre : String) :
    Except CacheError TreeMap :=
  if (a.getD []).any (fun e => (normSegs pre).isPrefixOf e.1) then
    Except.error CacheError.mergeConflictError
  else
    Except.ok ((a.getD []) ++ b.map (fun e => (normSegs pre ++ e.1, e.2)))

example : normSegs "a//b/" = ["a", "b"] := by decide
example : importTree [(["b"], [1]), (["a"], [2])] = [(["a"], [2]), (["b"], [1])] := by decide
example :
    exportTree [(["a"], [1])] [(["a"], [2])] (some [(["a"], [1])]) false =
      (Except.error CacheError.dirtyWorkingCopyError, [(["a"], [2])]) := rfl
example :
    exportTree [(["a"], [1])] [] none false =
      (Except.ok (), [(["a"], [1])]) := rfl
example :
    mergeTrees (some [(["x", "y"], [1])]) [(["z"], [2])] "x" =
      Except.error CacheError.mergeConflictError := rfl
example :
    mergeTrees none [(["z"], [2])] "a/b/" =
      Except.ok [(["a", "b", "z"], [2])] := rfl

example : utf8DecodeBytes [] [0xC2] = ([], [0xC2]) := by decide
example : utf8DecodeBytes [] [0x41, 0xC3, 0xA9] = ([0x41, 0xE9], []) := by decide
example : utf8DecodeBytes [0xC3] [0xA9, 0x42] = ([0xE9, 0x42], []) := by decide
example :
    create_subprocess_with_handle ["c"] ⟨[[0xC2]], 1⟩ =
      ProcOutcome.processError 1 ["c"] [] := by decide
example :
    create_subprocess_with_handle ["c"] ⟨[[0xC2]], 0⟩ =
      ProcOutcome.assertionFailed [0xC2] := by decide
example :
    stable_gather [⟨0, 10⟩, ⟨1, 20⟩] [1, 0] =
      Except.ok ([0, 1], [some 10, some 20]) := rfl

/-! ## Section 5: lemmas about the cache model -/

theorem hasKey_nil (p : TreePath) : hasKey [] p = false := rfl

theorem hasKey_cons (e : TreePath × Blob) (rest : TreeMap) (p : TreePath) :
    hasKey (e :: rest) p = (decide (e.1 = p) || hasKey rest p) := rfl

theorem lookupPath_nil (p : TreePath) : lookupPath [] p = none := rfl

theorem lookupPath_cons (e : TreePath × Blob) (rest : TreeMap) (p : TreePath) :
    lookupPath (e :: rest) p =
      if e.1 = p then some e.2 else lookupPath rest p := rfl

theorem lookupPath_eq_none_iff (d : TreeMap) (p : TreePath) :
    lookupPath d p = none ↔ hasKey d p = false := by
  induction d with
  | nil => simp [lookupPath_nil, hasKey_nil]
  | cons e rest ih =>
    by_cases h : e.1 = p
    · simp [lookupPath_cons, hasKey_cons, h]
    · simp [lookupPath_cons, hasKey_cons, h, ih]

theorem mem_of_lookupPath {d : TreeMap} {p : TreePath} {c : Blob}
    (h : lookupPath d p = some c) : (p, c) ∈ d := by
  induction d with
  | nil => simp [lookupPath_nil] at h
  | cons e rest ih =>
    rw [lookupPath_cons] at h
    by_cases he : e.1 = p
    · subst he
      rw [if_pos rfl] at h
      injection h with h2
      subst h2
      simp
    · rw [if_neg he] at h
      exact List.mem_cons_of_mem _ (ih h)

theorem hasKey_iff_mem_keys (d : TreeMap) (p : TreePath) :
    hasKey d p = true ↔ p ∈ d.map Prod.fst := by
  induction d with
  | nil => simp [hasKey_nil]
  | cons e rest ih =>
    simp only [hasKey_cons, List.map_cons, List.mem_cons, Bool.or_eq_true,
      decide_eq_true_eq, ← ih]
    exact or_congr ⟨fun h => h.symm, fun h => h.symm⟩ Iff.rfl

theorem lookupPath_of_mem_nodup {d : TreeMap} (hd : nodupKeys d)
    {p : TreePath} {c : Blob} (hm : (p, c) ∈ d) : lookupPath d p = some c := by
  induction d with
  | nil => simp at hm
  | cons e rest ih =>
    have hd' : e.1 ∉ rest.map Prod.fst ∧ nodupKeys rest := by
      simpa [nodupKeys] using hd
    rcases List.mem_cons.mp hm with hm | hm
    · simp [lookupPath_cons, ← hm]
    · have hne : ¬ e.1 = p := by
        intro he
        exact hd'.1 (he ▸ List.mem_map_of_mem Prod.fst hm)
      rw [lookupPath_cons, if_neg hne]
      exact ih hd'.2 hm

theorem nodupKeys_perm {d d' : TreeMap} (h : d.Perm d') (hd : nodupKeys d) :
    nodupKeys d' :=
  (h.map Prod.fst).nodup hd

theorem hasKey_perm {d d' : TreeMap} (h : d.Perm d') (p : TreePath) :
    hasKey d p = hasKey d' p := by
  have hmem : p ∈ d.map Prod.fst ↔ p ∈ d'.map Prod.fst :=
    (h.map Prod.fst).mem_iff
  by_cases h1 : hasKey d p = true
  · rw [h1]
    exact ((hasKey_iff_mem_keys d' p).mpr
      (hmem.mp ((hasKey_iff_mem_keys d p).mp h1))).symm
  · have h2 : ¬ hasKey d' p = true := fun hc =>
      h1 ((hasKey_iff_mem_keys d p).mpr
        (hmem.mpr ((hasKey_iff_mem_keys d' p).mp hc)))
    rw [Bool.not_eq_true] at h1 h2
    rw [h1, h2]

theorem lookupPath_perm {d d' : TreeMap} (h : d.Perm d') (hd : nodupKeys d)
    (p : TreePath) : lookupPath d p = lookupPath d' p := by
  rcases hx : lookupPath d p with _ | c
  · have hk : hasKey d' p = false := by
      rw [← hasKey_perm h p]
      exact (lookupPath_eq_none_iff d p).mp hx
    exact ((lookupPath_eq_none_iff d' p).mpr hk).symm
  · exact (lookupPath_of_mem_nodup (nodupKeys_perm h hd)
      (h.mem_iff.mp (mem_of_lookupPath hx))).symm

theorem lookupPath_append (d₁ d₂ : TreeMap) (q : TreePath) :
    lookupPath (d₁ ++ d₂) q =
      if hasKey d₁ q then lookupPath d₁ q else lookupPath d₂ q := by
  induction d₁ with
  | nil => simp [lookupPath_nil, hasKey_nil]
  | cons e rest ih =>
    by_cases he : e.1 = q
    · simp [lookupPath_cons, hasKey_cons, he]
    · simp [lookupPath_cons, hasKey_cons, he, ih]

theorem lookupPath_replaceMap (d : TreeMap) (p : TreePath) (c : Blob)
    (q : TreePath) :
    lookupPath (d.map (fun e => if e.1 = p then (p, c) else e)) q =
      if q = p then (if hasKey d p then some c else none)
      else lookupPath d q := by
  induction d with
  | nil => simp [lookupPath_nil, hasKey_nil]
  | cons e rest ih =>
    by_cases he : e.1 = p
    · by_cases hq : q = p
      · subst hq
        simp [lookupPath_cons, hasKey_cons, he]
      · have hpq : ¬ p = q := fun h => hq h.symm
        simp [lookupPath_cons, hasKey_cons, he, hpq, hq, ih]
    · by_cases heq : e.1 = q
      · have hq : ¬ q = p := fun h => he (heq.trans h)
        simp [lookupPath_cons, hasKey_cons, he, heq, hq]
      · simp [lookupPath_cons, hasKey_cons, he, heq, ih]

theorem lookupPath_dirWrite (d : TreeMap) (p : TreePath) (c : Blob)
    (q : TreePath) :
    lookupPath (dirWrite d p c) q =
      if q = p then some c else lookupPath d q := by
  unfold dirWrite
  by_cases hk : hasKey d p
  · simp [hk, lookupPath_replaceMap]
  · simp only [hk, Bool.false_eq_true, if_false, lookupPath_append]
    by_cases hq : q = p
    · subst hq
      rw [Bool.not_eq_true] at hk
      simp [hk, lookupPath_cons, (lookupPath_eq_none_iff d q).mpr hk]
    · by_cases hdq : hasKey d q
      · simp [hdq, hq]
      · rw [Bool.not_eq_true] at hdq
        have hpq : ¬ p = q := fun h => hq h.symm
        simp [hdq, hq, lookupPath_cons, lookupPath_nil, hpq,
          (lookupPath_eq_none_iff d q).mpr hdq]

theorem lookupPath_writeAll :
    ∀ (t d : TreeMap), nodupKeys t → ∀ p : TreePath,
      lookupPath (writeAll t d) p =
        if hasKey t p then lookupPath t p else lookupPath d p := by
  intro t
  induction t with
  | nil => intro d _ p; simp [writeAll, hasKey_nil]
  | cons e rest ih =>
    intro d ht p
    have ht' : e.1 ∉ rest.map Prod.fst ∧ nodupKeys rest := by
      simpa [nodupKeys] using ht
    rw [writeAll, ih (dirWrite d e.1 e.2) ht'.2 p, lookupPath_cons, hasKey_cons]
    by_cases hr : hasKey rest p = true
    · have hne : ¬ e.1 = p := fun he =>
        ht'.1 (he ▸ (hasKey_iff_mem_keys rest p).mp hr)
      simp [hr, hne]
    · rw [Bool.not_eq_true] at hr
      by_cases hpe : p = e.1
      · subst hpe
        simp [hr, lookupPath_dirWrite]
      · have hne : ¬ e.1 = p := fun he => hpe he.symm
        simp [hr, hne, lookupPath_dirWrite, hpe]

theorem dirtyPaths_isEmpty_false {baseline dest : TreeMap} {p : TreePath}
    {c c' : Blob} (hb : (p, c) ∈ baseline) (hd : lookupPath dest p = some c')
    (hne : c' ≠ c) : (dirtyPaths baseline dest).isEmpty = false := by
  have hmem : p ∈ dirtyPaths baseline dest := by
    unfold dirtyPaths
    refine List.mem_map.mpr ⟨(p, c), List.mem_filter.mpr ⟨hb, ?_⟩, rfl⟩
    simp only [hd]
    exact decide_eq_true hne
  rcases hl : dirtyPaths baseline dest with _ | ⟨x, xs⟩
  · rw [hl] at hmem
    exact absurd hmem (List.not_mem_nil p)
  · rfl

theorem dirtyPaths_eq_nil {baseline dest : TreeMap}
    (h : ∀ e ∈ baseline,
      lookupPath dest e.1 = none ∨ lookupPath dest e.1 = some e.2) :
    dirtyPaths baseline dest = [] := by
  unfold dirtyPaths
  rw [List.map_eq_nil_iff, List.filter_eq_nil_iff]
  intro e he
  rcases h e he with h1 | h1
  · simp [h1]
  · simp [h1]

theorem exportTree_dirty {t dest : TreeMap} {prev : Option TreeMap}
    (h : (dirtyPaths (prev.getD t) dest).isEmpty = false) :
    exportTree t dest prev false =
      (Except.error CacheError.dirtyWorkingCopyError, dest) := by
  unfold exportTree
  simp [h]

theorem exportTree_clean {t dest : TreeMap} {prev : Option TreeMap}
    {force : Bool} (h : dirtyPaths (prev.getD t) dest = []) :
    exportTree t dest prev force =
      (Except.ok (), writeAll t (removeStale t (prev.getD []) dest)) := by
  unfold exportTree
  simp [h]

theorem exportTree_clean_fst {t dest : TreeMap} {prev : Option TreeMap}
    {force : Bool} (h : dirtyPaths (prev.getD t) dest = []) :
    (exportTree t dest prev force).1 = Except.ok () := by
  rw [exportTree_clean h]

theorem exportTree_clean_snd {t dest : TreeMap} {prev : Option TreeMap}
    {force : Bool} (h : dirtyPaths (prev.getD t) dest = []) :
    (exportTree t dest prev force).2 =
      writeAll t (removeStale t (prev.getD []) dest) := by
  rw [exportTree_clean h]

/-! ## Section 6: claims about the TreeStore / WorkingCopySync component -/

/-- C1: for every tree `T` already exported to working copy `D`, if any file
tracked by `T` under `D` is locally edited (present with content differing
from what `T` records) and `export_tree(new_tree, D, previous_tree=T)` is
called with `force=False`, the call fails with `DirtyWorkingCopyError` and
leaves `D`'s content unchanged, regardless of whether `new_tree` also
changes the edited path (`newT` is arbitrary here, including trees that do
or do not change path `p`). -/
theorem export_tree_blocks_on_dirty_edit (T newT D : TreeMap) (p : TreePath)
    (c c' : Blob) (hT : lookupPath T p = some c)
    (hD : lookupPath D p = some c') (hne : c' ≠ c) :
    exportTree newT D (some T) false =
      (Except.error CacheError.dirtyWorkingCopyError, D) :=
  exportTree_dirty (dirtyPaths_isEmpty_false (mem_of_lookupPath hT) hD hne)

theorem export_tree_blocks_on_dirty_edit_witness :
    exportTree [(["a"], [9])] [(["a"], [2])] (some [(["a"], [1])]) false =
      (Except.error CacheError.dirtyWorkingCopyError, [(["a"], [2])]) :=
  export_tree_blocks_on_dirty_edit [(["a"], [1])] [(["a"], [9])]
    [(["a"], [2])] ["a"] [1] [2] rfl rfl (by decide)

/-- C4: for every export with `previous_tree` supplied, a path recorded in
`previous_tree` but absent from `dest_dir` is never classified as dirty
(here: if every path `previous_tree` records is either missing from
`dest_dir` or carries the recorded content, the dirty set is empty), so
`export_tree` succeeds without `force` and recreates the missing files:
afterwards `dest_dir` agrees with the target tree on every path the target
tree knows. -/
theorem export_tree_recreates_missing (t prevT dest : TreeMap)
    (ht : nodupKeys t)
    (hclean : ∀ e ∈ prevT,
      lookupPath dest e.1 = none ∨ lookupPath dest e.1 = some e.2) :
    dirtyPaths prevT dest = [] ∧
    (exportTree t dest (some prevT) false).1 = Except.ok () ∧
    ∀ p, hasKey t p = true →
      lookupPath (exportTree t dest (some prevT) false).2 p =
        lookupPath t p := by
  have hdirty : dirtyPaths prevT dest = [] := dirtyPaths_eq_nil hclean
  have hdirty' : dirtyPaths ((some prevT).getD t) dest = [] := hdirty
  refine ⟨hdirty, exportTree_clean_fst hdirty', ?_⟩
  intro p hp
  rw [exportTree_clean_snd hdirty', lookupPath_writeAll t _ ht p, if_pos hp]

theorem export_tree_recreates_missing_witness :
    (exportTree [(["a"], [1]), (["b"], [2])] [(["b"], [2])]
       (some [(["a"], [1]), (["b"], [2])]) false).1 = Except.ok () ∧
    lookupPath (exportTree [(["a"], [1]), (["b"], [2])] [(["b"], [2])]
       (some [(["a"], [1]), (["b"], [2])]) false).2 ["a"] = some [1] := by
  have h := export_tree_recreates_missing [(["a"], [1]), (["b"], [2])]
    [(["a"], [1]), (["b"], [2])] [(["b"], [2])] (by decide) (by decide)
  exact ⟨h.2.1, (h.2.2 ["a"] (by decide)).trans (by decide)⟩

/-- C2: for every directory `D` (with one file per path), exporting the tree
returned by `import_tree(D)` into a fresh empty directory succeeds and
reproduces `D`'s content byte-for-byte at every path (in particular empty
files and files nested under intermediate directories, which are encoded in
their paths); and repeating the same export of the same tree identity into
a clean directory reproduces byte-identical content. -/
theorem import_export_round_trip (D : TreeMap) (hD : nodupKeys D) :
    (exportTree (importTree D) [] none false).1 = Except.ok () ∧
    (∀ p, lookupPath (exportTree (importTree D) [] none false).2 p =
      lookupPath D p) ∧
    (∀ D₂ : TreeMap, importTree D₂ = importTree D →
      (exportTree (importTree D₂) [] none false).2 =
        (exportTree (importTree D) [] none false).2) := by
  have hperm : (importTree D).Perm D := List.perm_insertionSort entryLe D
  have hnd : nodupKeys (importTree D) := nodupKeys_perm hperm.symm hD
  have hdirty : dirtyPaths
      ((none : Option TreeMap).getD (importTree D)) [] = [] := by
    apply dirtyPaths_eq_nil
    intro e _
    exact Or.inl rfl
  refine ⟨exportTree_clean_fst hdirty, ?_, ?_⟩
  · intro p
    rw [exportTree_clean_snd hdirty]
    have hrs : removeStale (importTree D)
        ((none : Option TreeMap).getD []) [] = [] := rfl
    rw [hrs, lookupPath_writeAll _ [] hnd p]
    by_cases hk : hasKey (importTree D) p
    · rw [if_pos hk]
      exact lookupPath_perm hperm hnd p
    · rw [if_neg hk, lookupPath_nil]
      have hk' : hasKey D p = false := by
        rw [← hasKey_perm hperm p]
        simpa using hk
      exact ((lookupPath_eq_none_iff D p).mpr hk').symm
  · intro D₂ h12
    rw [h12]

theorem import_export_round_trip_witness :
    lookupPath (exportTree
        (importTree [(["b", "c"], [1, 2]), (["a"], []), (["b", "d"], [])])
        [] none false).2 ["b", "c"] = some [1, 2] :=
  ((import_export_round_trip
      [(["b", "c"], [1, 2]), (["a"], []), (["b", "d"], [])]
      (by decide)).2.1 ["b", "c"]).trans (by decide)

/-- C3: for every tree `A` and normalized prefix (the normalization of an
arbitrary prefix string `s`), if the prefix already resolves to an existing
file in `A` or to a non-empty subtree of `A` (some entry lies strictly
below it), then `merge_trees(A, B, s)` fails with `MergeConflictError` for
every `B`, rather than overwriting or silently dropping any existing
content. -/
theorem merge_trees_conflict (A B : TreeMap) (s : String)
    (hconf : (∃ c, (normSegs s, c) ∈ A) ∨
      ∃ e ∈ A, normSegs s <+: e.1 ∧ normSegs s ≠ e.1) :
    mergeTrees (some A) B s = Except.error CacheError.mergeConflictError := by
  unfold mergeTrees
  have hany : (((some A).getD []).any
      (fun e => (normSegs s).isPrefixOf e.1)) = true := by
    rcases hconf with ⟨c, hc⟩ | ⟨e, he, hpre, _⟩
    · exact List.any_eq_true.mpr
        ⟨(normSegs s, c), hc,
          List.isPrefixOf_iff_prefix.mpr (List.prefix_refl _)⟩
    · exact List.any_eq_true.mpr ⟨e, he, List.isPrefixOf_iff_prefix.mpr hpre⟩
  rw [if_pos hany]

theorem merge_trees_conflict_witness :
    mergeTrees (some [(["x", "y"], [1])]) [(["z"], [2])] "x//" =
      Except.error CacheError.mergeConflictError :=
  merge_trees_conflict [(["x", "y"], [1])] [(["z"], [2])] "x//"
    (Or.inr ⟨(["x", "y"], [1]), by decide, by decide, by decide⟩)

/-! ## Section 7: claims about the asynchronous execution harness -/

/-- C5 counterexample: a subprocess whose single output chunk is the lone
lead byte `0xC2` and whose exit code is nonzero leaves the incremental
decoder with a nonempty buffer at process exit, yet the call raises
`CalledProcessError` — the decoder assert on line 71 of `peru/async.py` is
never reached, because the nonzero-exit raise on lines 67-69 comes first.
So the assert does not surface on the nonzero-exit path, contrary to the
claim. -/
theorem subprocess_assert_skipped_on_nonzero_cex :
    (feedChunks [] [[0xC2]]).2 ≠ [] ∧
    create_subprocess_with_handle ["git"] ⟨[[0xC2]], 1⟩ =
      ProcOutcome.processError 1 ["git"] [] := by
  decide

/-- C5 (amended): after the subprocess exits, a nonempty decoder buffer
surfaces as the assertion failure exactly when the exit code is zero; on
the nonzero-exit path `CalledProcessError` is raised first and the buffer
assert is skipped. -/
theorem subprocess_assert_iff_zero_exit (cmd : List String)
    (chunks : List (List Nat)) (rc : Int) :
    create_subprocess_with_handle cmd ⟨chunks, rc⟩ =
        ProcOutcome.assertionFailed (feedChunks [] chunks).2 ↔
      rc = 0 ∧ (feedChunks [] chunks).2 ≠ [] := by
  unfold create_subprocess_with_handle
  by_cases h0 : rc = 0
  · subst h0
    by_cases hb : (feedChunks [] chunks).2 = []
    · simp [hb]
    · simp [hb]
  · simp [h0]

/-- C6 counterexample: a subprocess that exits zero after outputting only
the lone lead byte `0xC2` does not return the captured text (which is the
empty text — no complete character was decoded): the decoder-buffer assert
fails instead, so "if the exit code is zero it returns the full captured
text" does not hold as stated. -/
theorem subprocess_zero_exit_not_return_cex :
    create_subprocess_with_handle ["git"] ⟨[[0xC2]], 0⟩ =
      ProcOutcome.assertionFailed [0xC2] ∧
    create_subprocess_with_handle ["git"] ⟨[[0xC2]], 0⟩ ≠
      ProcOutcome.ok [] := by
  decide

/-- C6 (amended): if the exit code is nonzero the call fails with
`CalledProcessError` carrying the exit code, the command, and the full
captured merged output; if the exit code is zero *and the decoder holds no
undecoded bytes*, the call returns the full captured text. -/
theorem subprocess_outcome (cmd : List String) (chunks : List (List Nat))
    (rc : Int) :
    (rc ≠ 0 →
      create_subprocess_with_handle cmd ⟨chunks, rc⟩ =
        ProcOutcome.processError rc cmd (feedChunks [] chunks).1) ∧
    (rc = 0 → (feedChunks [] chunks).2 = [] →
      create_subprocess_with_handle cmd ⟨chunks, rc⟩ =
        ProcOutcome.ok (feedChunks [] chunks).1) := by
  constructor
  · intro h
    unfold create_subprocess_with_handle
    simp [h]
  · intro h hb
    subst h
    unfold create_subprocess_with_handle
    simp [hb]

theorem subprocess_outcome_witness :
    create_subprocess_with_handle ["git"] ⟨[[0x68, 0x69]], 1⟩ =
      ProcOutcome.processError 1 ["git"] [0x68, 0x69] ∧
    create_subprocess_with_handle ["git"] ⟨[[0x68, 0x69]], 0⟩ =
      ProcOutcome.ok [0x68, 0x69] :=
  ⟨(subprocess_outcome ["git"] [[0x68, 0x69]] 1).1 (by decide),
   (subprocess_outcome ["git"] [[0x68, 0x69]] 0).2 (by decide) (by decide)⟩

theorem foldl_enqueue (l : List Coro) :
    ∀ init : List Coro, l.foldl (fun q c => q ++ [c]) init = init ++ l := by
  induction l with
  | nil => intro init; simp
  | cons c rest ih => intro init; simp [ih]

theorem scheduleQueue_eq (coros : List Coro) : scheduleQueue coros = coros := by
  unfold scheduleQueue
  rw [foldl_enqueue]
  simp

theorem completeAll_foldl_getElem (tasks : List Coro) :
    ∀ (order : List Nat) (slots : List (Option Nat)),
      slots.length = tasks.length → ∀ j : Nat,
      (order.foldl (completeOne tasks) slots)[j]? =
        if j ∈ order ∧ j < tasks.length
        then (tasks[j]?).map (fun c => some c.result)
        else slots[j]? := by
  intro order
  induction order with
  | nil =>
    intro slots _ j
    simp
  | cons k rest ih =>
    intro slots hlen j
    have hlen' : (completeOne tasks slots k).length = tasks.length := by
      unfold completeOne
      cases htk : tasks[k]? with
      | none => simpa using hlen
      | some c => simp [List.length_set, hlen]
    rw [List.foldl_cons, ih (completeOne tasks slots k) hlen' j]
    rcases Nat.lt_or_ge j tasks.length with hj | hj
    · by_cases hr : j ∈ rest
      · rw [if_pos ⟨hr, hj⟩, if_pos ⟨List.mem_cons_of_mem _ hr, hj⟩]
      · rw [if_neg (fun h => hr h.1)]
        by_cases hk : j = k
        · subst hk
          rw [if_pos ⟨List.mem_cons_self _ _, hj⟩]
          unfold completeOne
          cases htj : tasks[j]? with
          | none =>
            exact absurd (List.getElem?_eq_none_iff.mp htj) (Nat.not_le.mpr hj)
          | some c =>
            rw [List.getElem?_set_self (hlen ▸ hj)]
            rfl
        · have h2 : ¬ (j ∈ k :: rest ∧ j < tasks.length) := by
            intro h
            rcases List.mem_cons.mp h.1 with h3 | h3
            · exact hk h3
            · exact hr h3
          rw [if_neg h2]
          unfold completeOne
          cases htk : tasks[k]? with
          | none => rfl
          | some c => exact List.getElem?_set_ne (fun he => hk he.symm)
    · have h1 : ¬ (j ∈ rest ∧ j < tasks.length) := fun h =>
        absurd h.2 (Nat.not_lt.mpr hj)
      have h2 : ¬ (j ∈ k :: rest ∧ j < tasks.length) := fun h =>
        absurd h.2 (Nat.not_lt.mpr hj)
      rw [if_neg h1, if_neg h2]
      unfold completeOne
      cases htk : tasks[k]? with
      | none => rfl
      | some c =>
        have hkl : k < tasks.length := (List.getElem?_eq_some.mp htk).1
        exact List.getElem?_set_ne
          (fun he => absurd (he ▸ hkl) (Nat.not_lt.mpr hj))

theorem completeAll_eq_results (tasks : List Coro) (order : List Nat)
    (hcov : ∀ j, j < tasks.length → j ∈ order) :
    completeAll tasks order = tasks.map (fun c => some c.result) := by
  apply List.ext_getElem?
  intro j
  unfold completeAll
  rw [completeAll_foldl_getElem tasks order (List.replicate tasks.length none)
      (by simp) j]
  rcases Nat.lt_or_ge j tasks.length with hj | hj
  · rw [if_pos ⟨hcov j hj, hj⟩, List.getElem?_map]
  · rw [if_neg (fun h => absurd h.2 (Nat.not_lt.mpr hj))]
    rw [List.getElem?_replicate, if_neg (Nat.not_lt.mpr hj)]
    rw [List.getElem?_map,
      List.getElem?_eq_none_iff.mpr (by simpa using hj)]
    rfl

/-- C7: for every ordered sequence of pairwise-distinct pending tasks
(distinctness is object identity, modelled by full `Coro` equality, which
is what `len(coros) == len(set(coros))` checks), `stable_gather` starts the
tasks in exactly the input order (the start log equals the input identity
sequence) and returns their results in input order for every completion
order covering the started tasks — i.e. regardless of completion order;
and if the same task is passed more than once, the assert fails fast
before anything is scheduled. -/
theorem stable_gather_order (coros : List Coro) (order : List Nat) :
    (coros.Nodup → (∀ j, j < coros.length → j ∈ order) →
      stable_gather coros order =
        Except.ok (coros.map Coro.cid, coros.map (fun c => some c.result))) ∧
    (¬ coros.Nodup →
      stable_gather coros order = Except.error "no duplicates allowed") := by
  constructor
  · intro hnd hcov
    unfold stable_gather
    have hlen : coros.length = coros.dedup.length := by
      rw [List.dedup_eq_self.mpr hnd]
    rw [if_neg (fun h => h hlen)]
    rw [completeAll_eq_results coros order hcov]
    unfold startLog
    rw [scheduleQueue_eq]
  · intro hnd
    unfold stable_gather
    have hne : coros.length ≠ coros.dedup.length := by
      intro h
      exact hnd
        ((List.dedup_sublist coros).eq_of_length h.symm ▸
          List.nodup_dedup coros)
    rw [if_pos hne]

theorem stable_gather_order_witness :
    stable_gather [⟨5, 50⟩, ⟨7, 70⟩, ⟨9, 90⟩] [2, 0, 1] =
      Except.ok ([5, 7, 9], [some 50, some 70, some 90]) ∧
    stable_gather [⟨5, 50⟩, ⟨5, 50⟩] [0, 1] =
      Except.error "no duplicates allowed" :=
  ⟨(stable_gather_order [⟨5, 50⟩, ⟨7, 70⟩, ⟨9, 90⟩] [2, 0, 1]).1
      (by decide) (by decide),
   (stable_gather_order [⟨5, 50⟩, ⟨5, 50⟩] [0, 1]).2 (by decide)⟩

/-! ## Section 8: claims about the plugin process protocol -/

theorem flattenPairs_length (pairs : List (String × String)) :
    (flattenPairs pairs).length = 2 * pairs.length := by
  induction pairs with
  | nil => rfl
  | cons p rest ih =>
    simp only [flattenPairs, List.length_cons, ih]
    omega

theorem pairUp_flattenPairs (pairs : List (String × String)) :
    pairUp (flattenPairs pairs) = pairs := by
  induction pairs with
  | nil => rfl
  | cons p rest ih =>
    obtain ⟨n, v⟩ := p
    simp [flattenPairs, pairUp, ih]

theorem findSplitterFrom_none_aux :
    ∀ (n : Nat) (l : List String), l.length ≤ n →
      (∀ j, j < l.length → j % 2 = 0 → l[j]? ≠ some "--") →
      ∀ i, findSplitterFrom l i = none := by
  intro n
  induction n with
  | zero =>
    intro l hl _ i
    have hnil : l = [] := List.eq_nil_of_length_eq_zero (Nat.le_zero.mp hl)
    subst hnil
    rfl
  | succ n ih =>
    intro l hl h i
    match l with
    | [] => rfl
    | [a] =>
      have ha : ¬ a = "--" := by
        have := h 0 (by simp) (by decide)
        simpa using this
      simp [findSplitterFrom, ha]
    | a :: b :: rest =>
      have ha : ¬ a = "--" := by
        have := h 0 (by simp) (by decide)
        simpa using this
      have hrest : ∀ j, j < rest.length → j % 2 = 0 → rest[j]? ≠ some "--" := by
        intro j hj hje
        have := h (j + 2) (by simp; omega) (by omega)
        simpa using this
      have hlen : rest.length ≤ n := by
        simp only [List.length_cons] at hl
        omega
      rw [show findSplitterFrom (a :: b :: rest) i =
          if a = "--" then some i else findSplitterFrom rest (i + 2) from rfl]
      rw [if_neg ha]
      exact ih rest hlen hrest (i + 2)

theorem findSplitterFrom_eq_none (l : List String)
    (h : ∀ j, j < l.length → j % 2 = 0 → l[j]? ≠ some "--") :
    findSplitterFrom l 0 = none :=
  findSplitterFrom_none_aux l.length l le_rfl h 0

theorem findSplitterFrom_flatten (pairs : List (String × String))
    (h : ∀ pr ∈ pairs, pr.1 ≠ "--") (tail : List String) :
    ∀ i, findSplitterFrom (flattenPairs pairs ++ "--" :: tail) i =
      some (i + 2 * pairs.length) := by
  induction pairs with
  | nil =>
    intro i
    show findSplitterFrom ("--" :: tail) i = some (i + 2 * 0)
    cases tail with
    | nil => simp [findSplitterFrom]
    | cons b bs => simp [findSplitterFrom]
  | cons p rest ih =>
    intro i
    obtain ⟨nm, v⟩ := p
    have hp : ¬ nm = "--" := h (nm, v) (List.mem_cons_self _ _)
    have hrest : ∀ pr ∈ rest, pr.1 ≠ "--" := fun pr hpr =>
      h pr (List.mem_cons_of_mem _ hpr)
    show findSplitterFrom
        (nm :: v :: (flattenPairs rest ++ "--" :: tail)) i = _
    rw [show findSplitterFrom (nm :: v :: (flattenPairs rest ++ "--" :: tail)) i =
        if nm = "--" then some i
        else findSplitterFrom (flattenPairs rest ++ "--" :: tail) (i + 2) from rfl]
    rw [if_neg hp, ih hrest (i + 2)]
    congr 1
    simp only [List.length_cons]
    omega

theorem buildFieldsDict_ok (allF : List String) :
    ∀ (pairs : List (String × String)) (acc : Fields),
      (∀ pr ∈ pairs, pr.1 ∈ allF) →
      buildFieldsDict allF pairs acc =
        Except.ok (pairs.foldl (fun d pr => dictInsert d pr.1 pr.2) acc) := by
  intro pairs
  induction pairs with
  | nil => intro acc _; rfl
  | cons p rest ih =>
    intro acc h
    obtain ⟨n, v⟩ := p
    have hn : n ∈ allF := h (n, v) (List.mem_cons_self _ _)
    show (if n ∈ allF then buildFieldsDict allF rest (dictInsert acc n v)
      else Except.error (PluginError.badFields "unrecognized field name")) = _
    rw [if_pos hn, ih _ (fun pr hpr => h pr (List.mem_cons_of_mem _ hpr))]
    rfl

theorem buildFieldsDict_err (allF : List String) :
    ∀ (pairs : List (String × String)) (acc : Fields),
      (¬ ∀ pr ∈ pairs, pr.1 ∈ allF) →
      buildFieldsDict allF pairs acc =
        Except.error (PluginError.badFields "unrecognized field name") := by
  intro pairs
  induction pairs with
  | nil => intro acc h; exact absurd (by simp) h
  | cons p rest ih =>
    intro acc h
    obtain ⟨n, v⟩ := p
    show (if n ∈ allF then buildFieldsDict allF rest (dictInsert acc n v)
      else Except.error (PluginError.badFields "unrecognized field name")) = _
    by_cases hn : n ∈ allF
    · rw [if_pos hn]
      apply ih
      intro hall
      apply h
      intro pr hpr
      rcases List.mem_cons.mp hpr with h1 | h1
      · rw [h1]
        exact hn
      · exact hall pr h1
    · rw [if_neg hn]

theorem any_key_replace (d : Fields) (k v r : String) :
    (d.map (fun kv => if kv.1 = k then (k, v) else kv)).any
        (fun kv => kv.1 = r) =
      d.any (fun kv => kv.1 = r) := by
  induction d with
  | nil => rfl
  | cons e rest ih =>
    by_cases he : e.1 = k
    · simp [he, ih]
    · simp [he, ih]

theorem dictInsert_hasName (d : Fields) (k v r : String) :
    (dictInsert d k v).any (fun kv => kv.1 = r) =
      (d.any (fun kv => kv.1 = r) || decide (k = r)) := by
  unfold dictInsert
  by_cases hk : d.any (fun kv => kv.1 = k)
  · rw [if_pos hk, any_key_replace]
    by_cases hkr : k = r
    · subst hkr
      simp [hk]
    · simp [hkr]
  · rw [if_neg hk, List.any_append]
    simp

theorem fieldsOfPairs_hasName :
    ∀ (pairs : List (String × String)) (acc : Fields) (r : String),
      ((pairs.foldl (fun d pr => dictInsert d pr.1 pr.2) acc).any
          (fun kv => kv.1 = r)) =
        (acc.any (fun kv => kv.1 = r) || pairs.any (fun pr => pr.1 = r)) := by
  intro pairs
  induction pairs with
  | nil => intro acc r; simp
  | cons p rest ih =>
    intro acc r
    rw [List.foldl_cons, ih, dictInsert_hasName]
    simp [Bool.or_assoc]

theorem parse_plugin_args_flat (req opt : List String)
    (pairs : List (String × String)) (cmd : String) (rest : List String)
    (hnames : ∀ pr ∈ pairs, pr.1 ≠ "--") :
    parse_plugin_args req opt (flattenPairs pairs ++ "--" :: cmd :: rest) =
      if ∀ pr ∈ pairs, pr.1 ∈ req ++ opt then
        (if ∀ r ∈ req, pairs.any (fun pr => pr.1 = r) = true then
          Except.ok (fieldsOfPairs pairs, cmd, rest)
        else Except.error (PluginError.badFields "missing required fields"))
      else Except.error (PluginError.badFields "unrecognized field name") := by
  have htake : (flattenPairs pairs ++ "--" :: cmd :: rest).take
      (0 + 2 * pairs.length) = flattenPairs pairs := by
    rw [Nat.zero_add, ← flattenPairs_length, List.take_left]
  have hget : (flattenPairs pairs ++ "--" :: cmd :: rest)[0 +
      2 * pairs.length + 1]? = some cmd := by
    rw [Nat.zero_add, ← flattenPairs_length,
      List.getElem?_append_right (Nat.le_add_right _ 1),
      Nat.add_sub_cancel_left]
    simp
  have hdrop : (flattenPairs pairs ++ "--" :: cmd :: rest).drop
      (0 + 2 * pairs.length + 2) = rest := by
    rw [Nat.zero_add, ← flattenPairs_length]
    rw [show flattenPairs pairs ++ "--" :: cmd :: rest =
      (flattenPairs pairs ++ ["--", cmd]) ++ rest from by simp]
    rw [show (flattenPairs pairs).length + 2 =
      (flattenPairs pairs ++ ["--", cmd]).length from by simp]
    exact List.drop_left _ _
  have hpar : ((flattenPairs pairs ++ "--" :: cmd :: rest).take
      (0 + 2 * pairs.length)).length % 2 = 0 := by
    rw [htake, flattenPairs_length]
    omega
  simp only [parse_plugin_args, findSplitterFrom_flatten pairs hnames
    (cmd :: rest) 0, hget, htake, hdrop]
  rw [if_neg (by rw [htake] at hpar; omega)]
  rw [pairUp_flattenPairs]
  by_cases hall : ∀ pr ∈ pairs, pr.1 ∈ req ++ opt
  · rw [buildFieldsDict_ok _ _ _ hall, if_pos hall]
    have hkeys : ∀ r, ((pairs.foldl (fun d pr => dictInsert d pr.1 pr.2)
        []).any (fun kv => kv.1 = r)) = pairs.any (fun pr => pr.1 = r) := by
      intro r
      rw [fieldsOfPairs_hasName]
      simp
    by_cases hreq : ∀ r ∈ req, pairs.any (fun pr => pr.1 = r) = true
    · have hb : req.all (fun r => (pairs.foldl
          (fun d pr => dictInsert d pr.1 pr.2) []).any
          (fun kv => kv.1 = r)) = true := by
        rw [List.all_eq_true]
        intro r hr
        rw [hkeys r]
        exact hreq r hr
      rw [if_pos hreq]
      simp [hb, fieldsOfPairs]
    · have hb : ¬ req.all (fun r => (pairs.foldl
          (fun d pr => dictInsert d pr.1 pr.2) []).any
          (fun kv => kv.1 = r)) = true := by
        rw [List.all_eq_true]
        intro hc
        apply hreq
        intro r hr
        rw [← hkeys r]
        exact hc r hr
      rw [if_neg hreq]
      simp [hb]
  · rw [buildFieldsDict_err _ _ _ hall, if_neg hall]

/-- C8: for every plugin argument vector, field name/value pairs before the
`"--"` splitter are validated against the union of required and optional
field names; a malformed field list is a fatal `BadFieldsError` — no `"--"`
splitter found by the scan (which also covers an odd number of field
arguments: an unpaired field name shifts `"--"` to an odd offset, where the
two-by-two scan never looks, so the splitter is never found), an
unrecognized field name, or a missing required field; a well-formed vector
dispatches command `fetch` to `fetch_fn(fields, dest, cache_path)` and
`reup` to `reup_fn(fields, cache_path)`, and any other command writes a
message to the error stream and exits nonzero. -/
theorem plugin_main_protocol (req opt : List String) (args : List String)
    (pairs : List (String × String)) (cmd dest cache : String)
    (rest : List String) :
    ((∀ j, j < args.length → j % 2 = 0 → args[j]? ≠ some "--") →
      plugin_main req opt args =
        PluginOutcome.badFields "Never found -- splitter.") ∧
    ((∀ pr ∈ pairs, pr.1 ≠ "--") → (¬ ∀ pr ∈ pairs, pr.1 ∈ req ++ opt) →
      plugin_main req opt (flattenPairs pairs ++ "--" :: cmd :: rest) =
        PluginOutcome.badFields "unrecognized field name") ∧
    ((∀ pr ∈ pairs, pr.1 ≠ "--") → (∀ pr ∈ pairs, pr.1 ∈ req ++ opt) →
      (¬ ∀ r ∈ req, pairs.any (fun pr => pr.1 = r) = true) →
      plugin_main req opt (flattenPairs pairs ++ "--" :: cmd :: rest) =
        PluginOutcome.badFields "missing required fields") ∧
    ((∀ pr ∈ pairs, pr.1 ≠ "--") → (∀ pr ∈ pairs, pr.1 ∈ req ++ opt) →
      (∀ r ∈ req, pairs.any (fun pr => pr.1 = r) = true) →
      plugin_main req opt
          (flattenPairs pairs ++ "--" :: "fetch" :: dest :: cache :: []) =
        PluginOutcome.fetched (fieldsOfPairs pairs) dest cache) ∧
    ((∀ pr ∈ pairs, pr.1 ≠ "--") → (∀ pr ∈ pairs, pr.1 ∈ req ++ opt) →
      (∀ r ∈ req, pairs.any (fun pr => pr.1 = r) = true) →
      plugin_main req opt
          (flattenPairs pairs ++ "--" :: "reup" :: cache :: []) =
        PluginOutcome.reupped (fieldsOfPairs pairs) cache) ∧
    ((∀ pr ∈ pairs, pr.1 ≠ "--") → (∀ pr ∈ pairs, pr.1 ∈ req ++ opt) →
      (∀ r ∈ req, pairs.any (fun pr => pr.1 = r) = true) →
      cmd ≠ "fetch" → cmd ≠ "reup" →
      plugin_main req opt (flattenPairs pairs ++ "--" :: cmd :: rest) =
        PluginOutcome.unknownCommand cmd) := by
  refine ⟨?_, ?_, ?_, ?_, ?_, ?_⟩
  · intro h
    unfold plugin_main parse_plugin_args
    rw [findSplitterFrom_eq_none args h]
  · intro hnames hall
    unfold plugin_main
    rw [parse_plugin_args_flat req opt pairs cmd rest hnames, if_neg hall]
  · intro hnames hall hreq
    unfold plugin_main
    rw [parse_plugin_args_flat req opt pairs cmd rest hnames, if_pos hall,
      if_neg hreq]
  · intro hnames hall hreq
    unfold plugin_main
    rw [parse_plugin_args_flat req opt pairs "fetch" (dest :: cache :: [])
      hnames, if_pos hall, if_pos hreq]
    simp
  · intro hnames hall hreq
    unfold plugin_main
    rw [parse_plugin_args_flat req opt pairs "reup" (cache :: []) hnames,
      if_pos hall, if_pos hreq]
    simp
  · intro hnames hall hreq hf hr
    unfold plugin_main
    rw [parse_plugin_args_flat req opt pairs cmd rest hnames, if_pos hall,
      if_pos hreq]
    simp [hf, hr]

theorem plugin_main_protocol_witness :
    plugin_main ["url"] ["rev"] ["url", "u", "x"] =
      PluginOutcome.badFields "Never found -- splitter." ∧
    plugin_main ["url"] ["rev"] ["bad", "u", "--", "fetch", "d", "c"] =
      PluginOutcome.badFields "unrecognized field name" ∧
    plugin_main ["url"] ["rev"] ["rev", "r", "--", "fetch", "d", "c"] =
      PluginOutcome.badFields "missing required fields" ∧
    plugin_main ["url"] ["rev"] ["url", "u", "--", "fetch", "d", "c"] =
      PluginOutcome.fetched [("url", "u")] "d" "c" ∧
    plugin_main ["url"] ["rev"] ["url", "u", "--", "reup", "c"] =
      PluginOutcome.reupped [("url", "u")] "c" ∧
    plugin_main ["url"] ["rev"] ["url", "u", "--", "frob"] =
      PluginOutcome.unknownCommand "frob" :=
  ⟨(plugin_main_protocol ["url"] ["rev"] ["url", "u", "x"] [] "" "" ""
      []).1 (by decide),
   (plugin_main_protocol ["url"] ["rev"] [] [("bad", "u")] "fetch" "" ""
      ["d", "c"]).2.1 (by decide) (by decide),
   (plugin_main_protocol ["url"] ["rev"] [] [("rev", "r")] "fetch" "" ""
      ["d", "c"]).2.2.1 (by decide) (by decide) (by decide),
   (plugin_main_protocol ["url"] ["rev"] [] [("url", "u")] "" "d" "c"
      []).2.2.2.1 (by decide) (by decide) (by decide),
   (plugin_main_protocol ["url"] ["rev"] [] [("url", "u")] "" "" "c"
      []).2.2.2.2.1 (by decide) (by decide) (by decide),
   (plugin_main_protocol ["url"] ["rev"] [] [("url", "u")] "frob" "" ""
      []).2.2.2.2.2 (by decide) (by decide) (by decide) (by decide)
      (by decide)⟩

/-! ## Section 9: claims about the git fetch plugin -/

/-- C9: in the git plugin's fetch command, the `git fetch --prune` step on
the cached mirror is skipped if and only if the cached clone already
contains the requested revision (`git cat-file -e` succeeds) and that
revision is a full hash (the output of `git rev-parse` on it, stripped,
equals the revision string exactly); otherwise the fetch is performed, and
it happens before the checkout of the revision into the destination. -/
theorem git_fetch_skip_iff (repo : GitRepo) (rev : String) :
    (("fetch" ∉ fetchJobRun repo rev) ↔
      (repo.hasRev rev = true ∧
        ∃ out, repo.revParse rev = some out ∧ pyStrip out = rev)) ∧
    ("fetch" ∈ fetchJobRun repo rev →
      fetchJobRun repo rev = ["clone_if_needed", "fetch", "checkout"]) := by
  unfold fetchJobRun
  by_cases h : git_already_has_rev repo rev = true
  · rw [if_pos h]
    constructor
    · constructor
      · intro _
        unfold git_already_has_rev at h
        by_cases hh : repo.hasRev rev = true
        · rw [if_pos hh] at h
          refine ⟨hh, ?_⟩
          cases hp : repo.revParse rev with
          | none => rw [hp] at h; exact absurd h (by simp)
          | some out =>
            rw [hp] at h
            exact ⟨out, rfl, of_decide_eq_true h⟩
        · rw [if_neg hh] at h
          exact absurd h (by simp)
      · intro _
        simp
    · intro hmem
      exact absurd hmem (by simp)
  · rw [if_neg h]
    constructor
    · constructor
      · intro hmem
        exact absurd (by simp : "fetch" ∈
          ["clone_if_needed"] ++ ["fetch"] ++ ["checkout"]) hmem
      · rintro ⟨hh, out, hp, hs⟩
        exact absurd (by
          unfold git_already_has_rev
          rw [if_pos hh, hp]
          exact decide_eq_true hs) h
    · intro _
      rfl

theorem git_fetch_skip_iff_witness :
    ("fetch" ∉ fetchJobRun
      ⟨fun r => r = "a1b2", fun r => if r = "a1b2" then some "a1b2\n" else none⟩
      "a1b2") ∧
    fetchJobRun
      ⟨fun r => r = "a1b2", fun r => if r = "a1b2" then some "a1b2\n" else none⟩
      "master" = ["clone_if_needed", "fetch", "checkout"] :=
  ⟨(git_fetch_skip_iff
      ⟨fun r => r = "a1b2", fun r => if r = "a1b2" then some "a1b2\n" else none⟩
      "a1b2").1.mpr ⟨by decide, "a1b2\n", by decide, by decide⟩,
   (git_fetch_skip_iff
      ⟨fun r => r = "a1b2", fun r => if r = "a1b2" then some "a1b2\n" else none⟩
      "master").2 (by decide)⟩

/-- C10: for every URL whose cache directory does not yet exist, if the
`git clone --mirror` fails, `git_clone_if_needed` removes the cache
directory it just created before propagating the error, leaving the cache
state exactly as before the call (no entry for that URL); on success it
creates the entry and returns the cache path derived by percent-escaping
the URL, and when the directory already exists it returns that path with
the state untouched. -/
theorem git_clone_if_needed_state (url cacheRoot : String) (fs : List String)
    (cloneOk : Bool) :
    ((repo_cache_path url cacheRoot ∉ fs) → cloneOk = false →
      git_clone_if_needed url cacheRoot fs cloneOk =
        (Except.error GitError.cloneFailed, fs)) ∧
    ((repo_cache_path url cacheRoot ∉ fs) → cloneOk = true →
      git_clone_if_needed url cacheRoot fs cloneOk =
        (Except.ok (cacheRoot ++ "/" ++ quoteUrl url),
          repo_cache_path url cacheRoot :: fs)) ∧
    ((repo_cache_path url cacheRoot ∈ fs) →
      git_clone_if_needed url cacheRoot fs cloneOk =
        (Except.ok (cacheRoot ++ "/" ++ quoteUrl url), fs)) := by
  refine ⟨?_, ?_, ?_⟩
  · intro hnot hko
    subst hko
    unfold git_clone_if_needed
    rw [if_neg hnot]
    simp [List.erase_cons_head]
  · intro hnot hok
    subst hok
    unfold git_clone_if_needed
    rw [if_neg hnot]
    rfl
  · intro hin
    unfold git_clone_if_needed
    rw [if_pos hin]
    rfl

theorem git_clone_if_needed_state_witness :
    git_clone_if_needed "u/v" "/cache" [] false =
      (Except.error GitError.cloneFailed, []) ∧
    git_clone_if_needed "u/v" "/cache" [] true =
      (Except.ok "/cache/u%2Fv", ["/cache/u%2Fv"]) ∧
    git_clone_if_needed "u/v" "/cache" ["/cache/u%2Fv"] false =
      (Except.ok "/cache/u%2Fv", ["/cache/u%2Fv"]) :=
  ⟨(git_clone_if_needed_state "u/v" "/cache" [] false).1 (by decide) rfl,
   ((git_clone_if_needed_state "u/v" "/cache" [] true).2.1 (by decide)
      rfl).trans (by rfl),
   ((git_clone_if_needed_state "u/v" "/cache" ["/cache/u%2Fv"]
      false).2.2 (by decide)).trans (by rfl)⟩
